import Mathlib

/-!
Verification of the XP / leaderboard / sync core of the gamified-perp-app
backend against its natural-language specification.

The definitions below are a shallow embedding of the TypeScript sources:
  - src/backend/src/services/XPService.ts       (XP awards, levels, intents)
  - src/backend/src/services/AchivementService.ts (LeaderboardService class:
    rank-change detection, getUserRank)
  - src/backend/src/services/LeaderboardService.ts (getLeaderboard)
  - src/backend/src/websocket/index.ts          (WebSocketService.sendToUser)

JavaScript numbers are modelled with Int / Nat, and the fractional
multipliers (1.1, 1.2, 1.5) with exact rationals; all products arising here
are small enough that IEEE doubles evaluate them exactly, so the rational
model agrees with the runtime values.  Postgres and Redis are modelled as
explicit state (lists and functions); the transaction in awardXP is
modelled by making the client-local writes visible only at the COMMIT
step, while pool-connection writes (awardAchievement) commit immediately.
Failure of an awaited I/O step is modelled by an injected failure oracle.
-/

namespace GamifiedPerp

/-! ## Action catalog and level thresholds (XPService.ts lines 24-76) -/

structure XPAction where
  type : String
  baseAmount : Nat
  cooldown : Option Nat := none
  maxDaily : Option Nat := none
deriving DecidableEq, Repr

/-- The literal contents of XPService.initializeXPActions. -/
def xpActions : List (String × XPAction) :=
  [ ("first_trade", ⟨"first_trade", 100, none, none⟩),
    ("trade_executed", ⟨"trade_executed", 20, some 60, none⟩),
    ("profitable_trade", ⟨"profitable_trade", 50, none, none⟩),
    ("loss_trade", ⟨"loss_trade", 10, none, none⟩),
    ("mock_trade", ⟨"mock_trade", 15, none, some 10⟩),
    ("daily_login", ⟨"daily_login", 5, some 86400, none⟩),
    ("streak_7", ⟨"streak_7", 100, none, none⟩),
    ("streak_30", ⟨"streak_30", 500, none, none⟩),
    ("referral_joined", ⟨"referral_joined", 200, none, none⟩),
    ("achievement_shared", ⟨"achievement_shared", 25, some 3600, none⟩) ]

/-- Lookup in the action map (this.xpActions.get). -/
def findAction (actionType : String) : Option XPAction :=
  (xpActions.find? (fun p => p.1 == actionType)).map (·.2)

/-- The literal contents of XPService.initializeLevelThresholds. -/
def levelThresholds : List Int :=
  [0, 100, 300, 600, 1000, 1600, 2500, 4000, 6000, 10000]

/-- The descending index loop of XPService.calculateLevel: the argument n
is the number of indices still to try; index n-1 is tried first. -/
def calculateLevelGo (totalXP : Int) : Nat → Nat
  | 0 => 1
  | n + 1 => if levelThresholds.getD n 0 ≤ totalXP then n + 1 else calculateLevelGo totalXP n

/-- XPService.calculateLevel (lines 199-206). -/
def calculateLevel (totalXP : Int) : Nat :=
  calculateLevelGo totalXP levelThresholds.length

/-! ## Reward calculator (XPService.ts lines 181-197, 245-256) -/

/-- XPService.getEventMultiplier: weekend bonus.  getDay() yields 0 for
Sunday and 6 for Saturday. -/
def getEventMultiplier (dayOfWeek : Nat) : ℚ :=
  if dayOfWeek = 0 ∨ dayOfWeek = 6 then 3 / 2 else 1

/-- XPService.calculateXPAmount, with the user's streak and the wall-clock
day of week passed explicitly instead of read from the database and clock.
The JS multiplications by 1.2 / 1.1 are staged exactly as in the source. -/
def calculateXPAmount (baseAmount streak dayOfWeek : Nat) : Int :=
  let amount : ℚ := baseAmount
  let amount := if 7 ≤ streak then amount * (6 / 5)
    else if 3 ≤ streak then amount * (11 / 10)
    else amount
  let amount := amount * getEventMultiplier dayOfWeek
  ⌊amount⌋

/-- The streak multiplier exactly as the specification states it, as a
single factor. -/
def streakMultiplier (streak : Nat) : ℚ :=
  if 7 ≤ streak then 6 / 5 else if 3 ≤ streak then 11 / 10 else 1

/-- calculateXPAmount rephrased over the integers (numerators in tenths),
so that concrete runs of the model evaluate by kernel reduction.  The
theorem calculateXPAmountZ_eq proves it pointwise equal to the staged
rational computation calculateXPAmount; awardXP below uses this form. -/
def calculateXPAmountZ (baseAmount streak dayOfWeek : Nat) : Int :=
  ((baseAmount : Int) * (if 7 ≤ streak then 12 else if 3 ≤ streak then 11 else 10) *
    (if dayOfWeek = 0 ∨ dayOfWeek = 6 then 15 else 10)) / 100

/-! ## System state for awardXP (XPService.ts lines 78-368)

The durable store (Postgres) is the xpLogs list, the stats map and the
achievements list; Redis is the cooldowns list, the intents list and the
three leaderboard sorted sets; sent is the list of messages handed to the
WebSocket fan-out layer.  The intents list has the most recently lpushed
element at its head, so rpop removes from the end. -/

/-- One row of user_stats, as read and written by awardXP.  awardXP
assumes the row exists (statsResult.rows[0] is dereferenced), so the map
from user id to stats is total. -/
structure UserStats where
  xpTotal : Int
  level : Nat
  currentStreak : Nat
deriving DecidableEq, Repr

/-- One intent object as built by XPService.queueXPIntent. -/
structure Intent where
  userId : Nat
  actionType : String
  amount : Int
deriving DecidableEq, Repr

/-- Messages handed to WebSocketService.sendToUser by XPService. -/
inductive WSEvent
  | xpGained (userId : Nat) (actionType : String) (xpAmount : Int)
      (totalXP : Int) (level : Nat) (leveledUp : Bool)
  | achievementUnlocked (userId : Nat) (achievementType : String) (title : String)
deriving DecidableEq, Repr

/-- A redis sorted set: association of member (user id) to score, with no
duplicate members.  zadd keeps the first occurrence position on update and
appends new members. -/
def zaddA (board : List (Nat × Int)) (member : Nat) (score : Int) : List (Nat × Int) :=
  if board.any (fun p => p.1 == member) then
    board.map (fun p => if p.1 == member then (member, score) else p)
  else
    board ++ [(member, score)]

/-- Whether entry p is ranked strictly ahead of a member m with score sc:
a strictly higher score, or the same score and the tie order.  Redis breaks
score ties by member order; distinct user ids are modelled with the
numerically larger id ahead (no theorem below depends on the tie order). -/
def aheadOf (m : Nat) (sc : Int) (p : Nat × Int) : Bool :=
  decide (sc < p.2) || (p.2 == sc && decide (m < p.1))

/-- ZREVRANK: the number of members ranked strictly ahead of m, ranking by
descending score. -/
def zrevrank (board : List (Nat × Int)) (m : Nat) : Option Nat :=
  match board.find? (fun p => p.1 == m) with
  | none => none
  | some (_, sc) => some (board.filter (aheadOf m sc)).length

/-- The whole mutable state touched by an awardXP call. -/
structure SysState where
  xpLogs : List (Nat × String × Int)
  stats : Nat → UserStats
  achievements : List (Nat × String)
  cooldowns : List (Nat × String)
  intents : List Intent
  ledger : List (List Intent)
  lbGlobal : List (Nat × Int)
  lbWeekly : List (Nat × Int)
  lbMonthly : List (Nat × Int)
  sent : List WSEvent

/-- The awaited steps of awardXP that can raise, in source order.  The
steps before COMMIT run on the transaction client; the steps after COMMIT
run outside the transaction.  achievementInsert is the pool-connection
insert inside awardAchievement (its failure is caught there and does not
propagate). -/
inductive Step
  | insertXpLog | updateStats | updateLevel | achievementInsert | commitTx
  | leaderboardUpdate | queueIntent | cooldownSet
deriving DecidableEq, BEq, Repr

/-- The environment of one awardXP call: the wall clock (day of week for
getEventMultiplier), the result of the CURRENT_DATE count query in
getDailyActionCount, the injected failure oracle, and whether the external
ledger call (StarknetService.batchUpdateXP) confirms. -/
structure AwardEnv where
  dayOfWeek : Nat
  dailyCount : Nat → String → Nat
  fails : Step → Bool
  ledgerOk : Bool

/-- How an awardXP run ended.  The TypeScript caller only sees the boolean
AwardResult.toBool. -/
inductive AwardResult
  | unknownAction | onCooldown | dailyLimit
  | txFailed (st : Step)
  | postCommitFailed (st : Step)
  | ok
deriving DecidableEq, Repr

/-- The boolean awardXP actually returns. -/
def AwardResult.toBool : AwardResult → Bool
  | .ok => true
  | _ => false

/-- XPService.getAchievementTitle (lines 370-379). -/
def getAchievementTitle (t : String) : String :=
  if t = "basic_trader" then "Basic Trader"
  else if t = "castle_lord" then "Castle Lord"
  else if t = "profit_prophet" then "Profit Prophet"
  else if t = "degen_lord" then "Degen Lord"
  else "Unknown Achievement"

/-- XPService.awardAchievement (lines 342-368).  It runs on the POOL, not
on the transaction client, so its insert commits immediately; the
ON CONFLICT clause makes the insert a no-op for an existing row; its own
try/catch swallows an insert failure. -/
def awardAchievement (env : AwardEnv) (s : SysState) (userId : Nat)
    (achievementType : String) : SysState :=
  if env.fails .achievementInsert then s
  else
    let rows := if (userId, achievementType) ∈ s.achievements then s.achievements
      else (userId, achievementType) :: s.achievements
    { s with achievements := rows,
             sent := .achievementUnlocked userId achievementType
               (getAchievementTitle achievementType) :: s.sent }

/-- XPService.checkLevelAchievements (lines 328-340): level 5 awards
basic_trader, else level 10 awards castle_lord. -/
def checkLevelAchievements (env : AwardEnv) (s : SysState) (userId : Nat)
    (level : Nat) : SysState :=
  let types := if level = 5 then ["basic_trader"]
    else if level = 10 then ["castle_lord"] else []
  types.foldl (fun st t => awardAchievement env st userId t) s

/-- XPService.setCooldown (lines 215-219): SETEX of the cooldown key (the
TTL is not modelled; no claim involves expiry). -/
def setCooldownS (s : SysState) (userId : Nat) (actionType : String) : SysState :=
  { s with cooldowns := (userId, actionType) :: s.cooldowns }

/-- XPService.checkCooldown (lines 208-213): EXISTS of the cooldown key. -/
def checkCooldownS (s : SysState) (userId : Nat) (actionType : String) : Bool :=
  s.cooldowns.contains (userId, actionType)

/-- XPService.updateLeaderboard (lines 258-271): ZADD of the new absolute
total into the global, current-week and current-month sorted sets. -/
def updateLeaderboardXP (s : SysState) (userId : Nat) (totalXP : Int) : SysState :=
  { s with lbGlobal := zaddA s.lbGlobal userId totalXP,
           lbWeekly := zaddA s.lbWeekly userId totalXP,
           lbMonthly := zaddA s.lbMonthly userId totalXP }

/-- XPService.processPendingXPIntents (lines 306-326): RPOP up to 100
intents (oldest first), then submit them as one batch to
StarknetService.batchUpdateXP.  The pops happen before the external call;
the catch block only logs, so a failed external call loses the popped
intents. -/
def processPendingXPIntentsS (env : AwardEnv) (s : SysState) : SysState :=
  let popped := s.intents.reverse.take 100
  let remaining := (s.intents.reverse.drop 100).reverse
  if popped.isEmpty then s
  else
    let s := { s with intents := remaining }
    if env.ledgerOk then { s with ledger := popped :: s.ledger } else s

/-- XPService.queueXPIntent (lines 285-304): LPUSH the intent, then if the
queue length reached 100 process the pending batch. -/
def queueXPIntentS (env : AwardEnv) (s : SysState) (userId : Nat)
    (actionType : String) (amount : Int) : SysState :=
  let s := { s with intents := ⟨userId, actionType, amount⟩ :: s.intents }
  if 100 ≤ s.intents.length then processPendingXPIntentsS env s else s

/-- The COMMIT of the awardXP transaction: the pending transaction-client
writes (the xp_logs insert and the user_stats updates) become durable in
one step, on top of the state s1 as left by the pool-connection writes. -/
def commitState (s1 : SysState) (userId : Nat) (actionType : String) (st0 : UserStats)
    (xpAmount newTotal : Int) (newLevel : Nat) (leveledUp : Bool) : SysState :=
  { s1 with
    xpLogs := (userId, actionType, xpAmount) :: s1.xpLogs,
    stats := fun v => if v = userId then
        { st0 with xpTotal := newTotal,
                   level := if leveledUp then newLevel else st0.level }
      else s1.stats v }

/-- The steps of awardXP after COMMIT (XPService.ts lines 147-170):
leaderboard ZADD, intent LPUSH, fan-out of the xp_gained event, SETEX of
the cooldown when the action has one.  Each awaited redis call may raise;
the catch block then returns false with the state as it stands.
sendToUser never raises (its send is wrapped in its own try/catch). -/
def awardTail (env : AwardEnv) (sC : SysState) (userId : Nat) (actionType : String)
    (action : XPAction) (xpAmount newTotal : Int) (newLevel : Nat)
    (leveledUp : Bool) : AwardResult × SysState :=
  if env.fails .leaderboardUpdate then (.postCommitFailed .leaderboardUpdate, sC)
  else
    let s3 := updateLeaderboardXP sC userId newTotal
    if env.fails .queueIntent then (.postCommitFailed .queueIntent, s3)
    else
      let s4 := queueXPIntentS env s3 userId actionType xpAmount
      let s5 := { s4 with
        sent := .xpGained userId actionType xpAmount newTotal newLevel leveledUp
          :: s4.sent }
      match action.cooldown with
      | some _ =>
        if env.fails .cooldownSet then (.postCommitFailed .cooldownSet, s5)
        else (.ok, setCooldownS s5 userId actionType)
      | none => (.ok, s5)

/-- XPService.awardXP (lines 78-179).  The transaction-client writes
(xp_logs insert, user_stats updates) become visible only at the COMMIT
step (commitState); a failure of any transaction step reaches the catch
block, which rolls the transaction back and returns false.
checkLevelAchievements runs before COMMIT but writes through the pool, so
its effects are NOT rolled back.  The steps after COMMIT are awardTail. -/
def awardXP (env : AwardEnv) (s : SysState) (userId : Nat)
    (actionType : String) : AwardResult × SysState :=
  match findAction actionType with
  | none => (.unknownAction, s)
  | some action =>
    if action.cooldown.isSome && checkCooldownS s userId actionType then
      (.onCooldown, s)
    else if (match action.maxDaily with
      | some cap => decide (cap ≤ env.dailyCount userId actionType)
      | none => false) then
      (.dailyLimit, s)
    else
      let st0 := s.stats userId
      let xpAmount := calculateXPAmountZ action.baseAmount st0.currentStreak env.dayOfWeek
      if env.fails .insertXpLog then (.txFailed .insertXpLog, s)
      else if env.fails .updateStats then (.txFailed .updateStats, s)
      else
        let newTotal := st0.xpTotal + xpAmount
        let newLevel := calculateLevel newTotal
        let leveledUp : Bool := decide (st0.level < newLevel)
        if leveledUp && env.fails .updateLevel then (.txFailed .updateLevel, s)
        else
          let s1 := if leveledUp then checkLevelAchievements env s userId newLevel else s
          if env.fails .commitTx then (.txFailed .commitTx, s1)
          else
            awardTail env
              (commitState s1 userId actionType st0 xpAmount newTotal newLevel leveledUp)
              userId actionType action xpAmount newTotal newLevel leveledUp

/-! ## Sequences of awardXP calls for one user (for the XP-sum invariant) -/

/-- The amount awardXP computes for this call from the pre-call state. -/
def awardAmount (env : AwardEnv) (s : SysState) (userId : Nat) (actionType : String) : Int :=
  match findAction actionType with
  | none => 0
  | some action =>
    calculateXPAmountZ action.baseAmount (s.stats userId).currentStreak env.dayOfWeek

/-- Run a sequence of awardXP calls for one user, each with its own
environment. -/
def runAward (userId : Nat) : SysState → List (AwardEnv × String) → SysState
  | s, [] => s
  | s, (env, a) :: rest => runAward userId (awardXP env s userId a).2 rest

/-- The computed amounts along a run. -/
def runAmounts (userId : Nat) : SysState → List (AwardEnv × String) → List Int
  | _, [] => []
  | s, (env, a) :: rest =>
    awardAmount env s userId a :: runAmounts userId (awardXP env s userId a).2 rest

/-- Whether every call of the run returned true. -/
def allOk (userId : Nat) : SysState → List (AwardEnv × String) → Bool
  | _, [] => true
  | s, (env, a) :: rest =>
    (awardXP env s userId a).1.toBool && allOk userId (awardXP env s userId a).2 rest

/-! ## Ranking order of a redis sorted set (descending scores)

sortBoard gives the list a ZREVRANGE walks: higher score first, score ties
by member as in zrevrank. -/

/-- p is ranked no later than q: strictly higher score, or same score and
the tie order. -/
def rankBefore (p q : Nat × Int) : Prop :=
  q.2 < p.2 ∨ (p.2 = q.2 ∧ q.1 ≤ p.1)

instance : DecidableRel rankBefore := fun p q => by
  unfold rankBefore; exact inferInstance

instance : IsTotal (Nat × Int) rankBefore := by
  constructor
  intro p q
  unfold rankBefore
  omega

instance : IsTrans (Nat × Int) rankBefore := by
  constructor
  intro p q r
  unfold rankBefore
  omega

/-- The descending-rank order of the sorted set. -/
def sortBoard (board : List (Nat × Int)) : List (Nat × Int) :=
  board.insertionSort rankBefore

/-! ## LeaderboardService in AchivementService.ts (lines 693-970) -/

/-- LeaderboardService.RANK_CHANGE_THRESHOLD (line 703). -/
def rankChangeThreshold : Nat := 10

/-- LeaderboardService.updateLeaderboard (AchivementService.ts lines
738-766) for one window: read the old rank, ZADD the score, read the new
rank, and fire a rank-change notification when both ranks exist and the
change is significant.  Returns the updated sorted set and whether
notifyRankChange was called. -/
def updateLeaderboardRank (board : List (Nat × Int)) (userId : Nat) (score : Int) :
    List (Nat × Int) × Bool :=
  let oldRank := zrevrank board userId
  let board2 := zaddA board userId score
  let newRank := zrevrank board2 userId
  match oldRank, newRank with
  | some o, some n =>
    (board2, decide (rankChangeThreshold ≤ ((o : Int) - n).natAbs) || decide (n < 10))
  | _, _ => (board2, false)

/-- LeaderboardService.getUserRank (AchivementService.ts lines 942-947):
ZREVRANK plus one, or null when the member is absent. -/
def getUserRankS (board : List (Nat × Int)) (userId : Nat) : Option Nat :=
  match zrevrank board userId with
  | some r => some (r + 1)
  | none => none

/-! ## getLeaderboard in LeaderboardService.ts (lines 53-102) -/

/-- One row of the users/user_stats join.  The LEFT JOIN makes level
nullable. -/
structure UserRow where
  id : Nat
  username : String
  walletAddress : String
  level : Option Nat
deriving DecidableEq, Repr

structure LeaderboardEntry where
  rank : Nat
  userId : Nat
  username : String
  walletAddress : String
  level : Nat
  xp : Int
deriving DecidableEq, Repr

/-- ZREVRANGE 0 (limit-1) WITHSCORES. -/
def zrevrangeWithScores (board : List (Nat × Int)) (limit : Nat) : List (Nat × Int) :=
  (sortBoard board).take limit

/-- LeaderboardService.getLeaderboard (LeaderboardService.ts lines
53-102).  dbRows is the users table in the relational store's row-return
order: the WHERE id = ANY clause has no ORDER BY, so the rows come back in
whatever order the store produces, which the model takes as an input.
The source maps over these rows (userDetails), assigning rank = index + 1
in THAT order. -/
def getLeaderboardQ (board : List (Nat × Int)) (dbRows : List UserRow)
    (limit : Nat) : List LeaderboardEntry :=
  let results := zrevrangeWithScores board limit
  if results.isEmpty then []
  else
    let userIds := results.map (·.1)
    let userDetails := dbRows.filter (fun u => userIds.contains u.id)
    userDetails.enum.map (fun p =>
      { rank := p.1 + 1, userId := p.2.id, username := p.2.username,
        walletAddress := p.2.walletAddress, level := p.2.level.getD 1,
        xp := ((results.find? (fun q => q.1 == p.2.id)).map (·.2)).getD 0 })

/-! ## WebSocketService (websocket/index.ts) -/

/-- One ws connection as the service sees it: identity, the
authenticated user, and whether readyState is OPEN. -/
structure Conn where
  connId : Nat
  userId : Nat
  isOpen : Bool
deriving DecidableEq, Repr

/-- The connections registered under a user id in the clients map. -/
def connsOf (clients : List (Nat × List Conn)) (userId : Nat) : List Conn :=
  ((clients.find? (fun p => p.1 == userId)).map (·.2)).getD []

/-- WebSocketService.sendToUser (websocket/index.ts lines 288-298): one
send per currently registered connection whose socket is open.  The
returned list is the deliveries this single call produces. -/
def sendToUserW (clients : List (Nat × List Conn)) (userId : Nat)
    (event : String) : List (Conn × String) :=
  match clients.find? (fun p => p.1 == userId) with
  | none => []
  | some (_, conns) => (conns.filter (·.isOpen)).map (fun c => (c, event))

/-- The close handler (websocket/index.ts lines 104-115): remove the
socket from its user's entry in the clients map, and delete the entry
when its set became empty. -/
def handleClose (clients : List (Nat × List Conn)) (c : Conn) :
    List (Nat × List Conn) :=
  match clients with
  | [] => []
  | (k, cs) :: rest =>
    if k == c.userId then
      let cs2 := cs.filter (fun x => !(x == c))
      if cs2.isEmpty then handleClose rest c else (k, cs2) :: handleClose rest c
    else (k, cs) :: handleClose rest c

/-- A no-failure environment on a weekday, with an empty daily count and a
confirming ledger. -/
def envOK : AwardEnv :=
  { dayOfWeek := 1, dailyCount := fun _ _ => 0, fails := fun _ => false, ledgerOk := true }

/-- A fresh user profile: XP 0, level 1, no streak. -/
def freshStats : UserStats := ⟨0, 1, 0⟩

/-- A fresh system state where every user has a fresh profile. -/
def freshState : SysState :=
  ⟨[], fun _ => freshStats, [], [], [], [], [], [], [], []⟩

/-- An environment whose only failure is at the COMMIT of the durable
transaction. -/
def envFailCommit : AwardEnv :=
  { dayOfWeek := 1, dailyCount := fun _ _ => 0,
    fails := fun st => st == Step.commitTx, ledgerOk := true }

/-- A state in which every user sits just below the level-5 threshold. -/
def nearLevel5State : SysState :=
  ⟨[], fun _ => ⟨999, 4, 0⟩, [], [], [], [], [], [], [], []⟩

/-- Two successful award requests used to witness the XP-sum property. -/
def reqsC3 : List (AwardEnv × String) :=
  [(envOK, "first_trade"), (envOK, "profitable_trade")]

/-- An environment whose external ledger call fails to confirm. -/
def envLedgerDown : AwardEnv :=
  { dayOfWeek := 1, dailyCount := fun _ _ => 0, fails := fun _ => false, ledgerOk := false }

/-- A state whose intent queue holds 99 pending intents, one below the
batch trigger. -/
def fullQueueState : SysState :=
  { freshState with intents := (List.range 99).map (fun i => ⟨i, "trade_executed", 20⟩) }

/-- Two user rows as the relational store returns them (ascending id
order), for the leaderboard-order counterexample. -/
def rowsAB : List UserRow :=
  [⟨1, "alice", "0xa", some 3⟩, ⟨2, "bob", "0xb", some 4⟩]

/-- A small clients map: user 1 with one open and one closed socket, and
user 2 with one open socket. -/
def clientsW : List (Nat × List Conn) :=
  [(1, [⟨10, 1, true⟩, ⟨11, 1, false⟩]), (2, [⟨12, 2, true⟩])]

/-! ## Helper lemmas -/

theorem calculateLevel_eq (t : Int) : calculateLevel t =
    if 10000 ≤ t then 10 else if 6000 ≤ t then 9 else if 4000 ≤ t then 8
    else if 2500 ≤ t then 7 else if 1600 ≤ t then 6 else if 1000 ≤ t then 5
    else if 600 ≤ t then 4 else if 300 ≤ t then 3 else if 100 ≤ t then 2
    else if 0 ≤ t then 1 else 1 := rfl

theorem calculateXPAmount_nonneg (b s d : Nat) : 0 ≤ calculateXPAmount b s d := by
  unfold calculateXPAmount getEventMultiplier
  have hb : (0 : ℚ) ≤ (b : ℚ) := by positivity
  split_ifs <;> (rw [Int.le_floor] ; push_cast ; positivity)

theorem floorZ (n100 : Int) (q : ℚ) (h : q = (n100 : ℚ) / 100) : ⌊q⌋ = n100 / 100 := by
  subst h
  have := Rat.floor_intCast_div_natCast n100 100
  simpa using this

theorem calculateXPAmountZ_eq (b s d : Nat) :
    calculateXPAmountZ b s d = calculateXPAmount b s d := by
  unfold calculateXPAmountZ calculateXPAmount getEventMultiplier
  split_ifs <;> (rw [eq_comm] ; apply floorZ ; push_cast ; ring)

theorem calculateXPAmountZ_nonneg (b s d : Nat) : 0 ≤ calculateXPAmountZ b s d := by
  rw [calculateXPAmountZ_eq]
  exact calculateXPAmount_nonneg b s d

/-! ## Claim theorems for the pure functions -/

/-- C10: calculateLevel is total on all integers and always yields a level
between 1 and 10; every total below 100 (zero and negative totals
included) yields level 1, and the level stays capped at 10 for every total
at or above 10000. -/
theorem calculateLevel_total_and_bounded (t : Int) :
    1 ≤ calculateLevel t ∧ calculateLevel t ≤ 10 ∧
    (t < 100 → calculateLevel t = 1) ∧
    (10000 ≤ t → calculateLevel t = 10) := by
  rw [calculateLevel_eq]
  split_ifs <;> omega

/-- Closed witness for C10 at concrete totals. -/
theorem calculateLevel_total_and_bounded_witness :
    calculateLevel (-5) = 1 ∧ calculateLevel 123456789 = 10 :=
  ⟨(calculateLevel_total_and_bounded (-5)).2.2.1 (by decide),
   (calculateLevel_total_and_bounded 123456789).2.2.2 (by decide)⟩

/-- C5: for every base amount, streak and clock day, calculateXPAmount is
exactly the base amount times the streak multiplier (1.2 for streak at
least 7, 1.1 for streak at least 3, else 1) times the event multiplier
(1.5 on a weekend day, else 1), truncated to an integer; the product is
non-negative, so the floor is the truncation toward zero, and the result
is non-negative. -/
theorem calculateXPAmount_spec (b s d : Nat) :
    calculateXPAmount b s d =
      ⌊(b : ℚ) * streakMultiplier s * getEventMultiplier d⌋ ∧
    0 ≤ (b : ℚ) * streakMultiplier s * getEventMultiplier d ∧
    0 ≤ calculateXPAmount b s d := by
  refine ⟨?_, ?_, calculateXPAmount_nonneg b s d⟩
  · unfold calculateXPAmount streakMultiplier
    split_ifs <;> ring_nf
  · have hb : (0 : ℚ) ≤ (b : ℚ) := by positivity
    unfold streakMultiplier getEventMultiplier
    split_ifs <;> positivity

set_option maxHeartbeats 2000000 in
/-- C4: for every non-negative total, calculateLevel returns the highest
level whose threshold in the fixed ascending table is at or below the
total (so a total exactly on a threshold resolves to the higher level),
and the first_trade scenario holds: base amount 100, no streak, a
non-bonus day gives final amount 100 and moves a fresh user from level 1
to level 2 at total XP 100. -/
theorem calculateLevel_highest_threshold_and_first_trade (t : Int) (ht : 0 ≤ t) :
    (levelThresholds.getD (calculateLevel t - 1) 0 ≤ t ∧
      (∀ i, i < levelThresholds.length → levelThresholds.getD i 0 ≤ t →
        i + 1 ≤ calculateLevel t)) ∧
    (calculateXPAmount 100 0 1 = 100 ∧
      (awardXP envOK freshState 1 "first_trade").1 = .ok ∧
      ((awardXP envOK freshState 1 "first_trade").2.stats 1).xpTotal = 100 ∧
      ((awardXP envOK freshState 1 "first_trade").2.stats 1).level = 2 ∧
      (freshState.stats 1).level = 1 ∧
      calculateLevel 0 = 1 ∧ calculateLevel 100 = 2) := by
  constructor
  · constructor
    · rw [calculateLevel_eq]
      split_ifs <;> norm_num [levelThresholds, List.getD] <;> omega
    · intro i hi hle
      have hi10 : i < 10 := by simpa [levelThresholds] using hi
      have g0 : levelThresholds.getD 0 0 = 0 := by decide
      have g1 : levelThresholds.getD 1 0 = 100 := by decide
      have g2 : levelThresholds.getD 2 0 = 300 := by decide
      have g3 : levelThresholds.getD 3 0 = 600 := by decide
      have g4 : levelThresholds.getD 4 0 = 1000 := by decide
      have g5 : levelThresholds.getD 5 0 = 1600 := by decide
      have g6 : levelThresholds.getD 6 0 = 2500 := by decide
      have g7 : levelThresholds.getD 7 0 = 4000 := by decide
      have g8 : levelThresholds.getD 8 0 = 6000 := by decide
      have g9 : levelThresholds.getD 9 0 = 10000 := by decide
      rw [calculateLevel_eq]
      interval_cases i <;>
        simp only [g0, g1, g2, g3, g4, g5, g6, g7, g8, g9] at hle <;>
        split_ifs <;> omega
  · refine ⟨?_, by decide, by decide, by decide, by decide, by decide, by decide⟩
    rw [← calculateXPAmountZ_eq]
    decide

/-- Closed witness for C4 at total 100. -/
theorem calculateLevel_highest_threshold_and_first_trade_witness :
    (levelThresholds.getD (calculateLevel 100 - 1) 0 ≤ (100 : Int)) ∧
    ((awardXP envOK freshState 1 "first_trade").2.stats 1).level = 2 :=
  ⟨(calculateLevel_highest_threshold_and_first_trade 100 (by decide)).1.1,
   (calculateLevel_highest_threshold_and_first_trade 100 (by decide)).2.2.2.2.1⟩

/-! ## Frame lemmas for the awardXP stages -/

theorem awardAchievement_stats (env : AwardEnv) (s : SysState) (u : Nat) (t : String) :
    (awardAchievement env s u t).stats = s.stats := by
  unfold awardAchievement; split_ifs <;> rfl

theorem awardAchievement_cooldowns (env : AwardEnv) (s : SysState) (u : Nat) (t : String) :
    (awardAchievement env s u t).cooldowns = s.cooldowns := by
  unfold awardAchievement; split_ifs <;> rfl

theorem awardAchievement_xpLogs (env : AwardEnv) (s : SysState) (u : Nat) (t : String) :
    (awardAchievement env s u t).xpLogs = s.xpLogs := by
  unfold awardAchievement; split_ifs <;> rfl

theorem awardAchievement_intents (env : AwardEnv) (s : SysState) (u : Nat) (t : String) :
    (awardAchievement env s u t).intents = s.intents := by
  unfold awardAchievement; split_ifs <;> rfl

theorem awardAchievement_ledger (env : AwardEnv) (s : SysState) (u : Nat) (t : String) :
    (awardAchievement env s u t).ledger = s.ledger := by
  unfold awardAchievement; split_ifs <;> rfl

theorem awardAchievement_lbGlobal (env : AwardEnv) (s : SysState) (u : Nat) (t : String) :
    (awardAchievement env s u t).lbGlobal = s.lbGlobal := by
  unfold awardAchievement; split_ifs <;> rfl

theorem awardAchievement_lbWeekly (env : AwardEnv) (s : SysState) (u : Nat) (t : String) :
    (awardAchievement env s u t).lbWeekly = s.lbWeekly := by
  unfold awardAchievement; split_ifs <;> rfl

theorem awardAchievement_lbMonthly (env : AwardEnv) (s : SysState) (u : Nat) (t : String) :
    (awardAchievement env s u t).lbMonthly = s.lbMonthly := by
  unfold awardAchievement; split_ifs <;> rfl

theorem awardAchievement_sent (env : AwardEnv) (s : SysState) (u : Nat) (t : String) :
    ∀ m ∈ (awardAchievement env s u t).sent,
      m ∈ s.sent ∨ m = WSEvent.achievementUnlocked u t (getAchievementTitle t) := by
  unfold awardAchievement
  split_ifs <;> intro m hm <;>
    first
      | exact Or.inl hm
      | (simp only [List.mem_cons] at hm
         rcases hm with h | h
         · exact Or.inr h
         · exact Or.inl h)

theorem checkLevelAchievements_stats (env : AwardEnv) (s : SysState) (u : Nat) (l : Nat) :
    (checkLevelAchievements env s u l).stats = s.stats := by
  unfold checkLevelAchievements
  split_ifs <;> simp [List.foldl, awardAchievement_stats]

theorem checkLevelAchievements_cooldowns (env : AwardEnv) (s : SysState) (u : Nat) (l : Nat) :
    (checkLevelAchievements env s u l).cooldowns = s.cooldowns := by
  unfold checkLevelAchievements
  split_ifs <;> simp [List.foldl, awardAchievement_cooldowns]

theorem checkLevelAchievements_xpLogs (env : AwardEnv) (s : SysState) (u : Nat) (l : Nat) :
    (checkLevelAchievements env s u l).xpLogs = s.xpLogs := by
  unfold checkLevelAchievements
  split_ifs <;> simp [List.foldl, awardAchievement_xpLogs]

theorem checkLevelAchievements_intents (env : AwardEnv) (s : SysState) (u : Nat) (l : Nat) :
    (checkLevelAchievements env s u l).intents = s.intents := by
  unfold checkLevelAchievements
  split_ifs <;> simp [List.foldl, awardAchievement_intents]

theorem checkLevelAchievements_ledger (env : AwardEnv) (s : SysState) (u : Nat) (l : Nat) :
    (checkLevelAchievements env s u l).ledger = s.ledger := by
  unfold checkLevelAchievements
  split_ifs <;> simp [List.foldl, awardAchievement_ledger]

theorem checkLevelAchievements_lbGlobal (env : AwardEnv) (s : SysState) (u : Nat) (l : Nat) :
    (checkLevelAchievements env s u l).lbGlobal = s.lbGlobal := by
  unfold checkLevelAchievements
  split_ifs <;> simp [List.foldl, awardAchievement_lbGlobal]

theorem checkLevelAchievements_lbWeekly (env : AwardEnv) (s : SysState) (u : Nat) (l : Nat) :
    (checkLevelAchievements env s u l).lbWeekly = s.lbWeekly := by
  unfold checkLevelAchievements
  split_ifs <;> simp [List.foldl, awardAchievement_lbWeekly]

theorem checkLevelAchievements_lbMonthly (env : AwardEnv) (s : SysState) (u : Nat) (l : Nat) :
    (checkLevelAchievements env s u l).lbMonthly = s.lbMonthly := by
  unfold checkLevelAchievements
  split_ifs <;> simp [List.foldl, awardAchievement_lbMonthly]

theorem checkLevelAchievements_sent (env : AwardEnv) (s : SysState) (u : Nat) (l : Nat) :
    ∀ m ∈ (checkLevelAchievements env s u l).sent,
      m ∈ s.sent ∨ ∃ t, m = WSEvent.achievementUnlocked u t (getAchievementTitle t) := by
  unfold checkLevelAchievements
  split_ifs <;> simp only [List.foldl] <;> intro m hm
  · rcases awardAchievement_sent env s u "basic_trader" m hm with h | h
    · exact Or.inl h
    · exact Or.inr ⟨"basic_trader", h⟩
  · rcases awardAchievement_sent env s u "castle_lord" m hm with h | h
    · exact Or.inl h
    · exact Or.inr ⟨"castle_lord", h⟩
  · exact Or.inl hm

theorem updateLeaderboardXP_stats (s : SysState) (u : Nat) (t : Int) :
    (updateLeaderboardXP s u t).stats = s.stats := rfl

theorem updateLeaderboardXP_cooldowns (s : SysState) (u : Nat) (t : Int) :
    (updateLeaderboardXP s u t).cooldowns = s.cooldowns := rfl

theorem updateLeaderboardXP_sent (s : SysState) (u : Nat) (t : Int) :
    (updateLeaderboardXP s u t).sent = s.sent := rfl

theorem processPendingXPIntentsS_stats (env : AwardEnv) (s : SysState) :
    (processPendingXPIntentsS env s).stats = s.stats := by
  by_cases h : (s.intents.reverse.take 100).isEmpty <;>
    by_cases hl : env.ledgerOk <;>
    simp [processPendingXPIntentsS, h, hl]

theorem processPendingXPIntentsS_cooldowns (env : AwardEnv) (s : SysState) :
    (processPendingXPIntentsS env s).cooldowns = s.cooldowns := by
  by_cases h : (s.intents.reverse.take 100).isEmpty <;>
    by_cases hl : env.ledgerOk <;>
    simp [processPendingXPIntentsS, h, hl]

theorem processPendingXPIntentsS_sent (env : AwardEnv) (s : SysState) :
    (processPendingXPIntentsS env s).sent = s.sent := by
  by_cases h : (s.intents.reverse.take 100).isEmpty <;>
    by_cases hl : env.ledgerOk <;>
    simp [processPendingXPIntentsS, h, hl]

theorem queueXPIntentS_stats (env : AwardEnv) (s : SysState) (u : Nat) (a : String) (amt : Int) :
    (queueXPIntentS env s u a amt).stats = s.stats := by
  simp only [queueXPIntentS]
  split_ifs <;> simp [processPendingXPIntentsS_stats]

theorem queueXPIntentS_cooldowns (env : AwardEnv) (s : SysState) (u : Nat) (a : String) (amt : Int) :
    (queueXPIntentS env s u a amt).cooldowns = s.cooldowns := by
  simp only [queueXPIntentS]
  split_ifs <;> simp [processPendingXPIntentsS_cooldowns]

theorem queueXPIntentS_sent (env : AwardEnv) (s : SysState) (u : Nat) (a : String) (amt : Int) :
    (queueXPIntentS env s u a amt).sent = s.sent := by
  simp only [queueXPIntentS]
  split_ifs <;> simp [processPendingXPIntentsS_sent]

theorem commitState_stats_self (s1 : SysState) (u : Nat) (a : String) (st0 : UserStats)
    (xpAmount newTotal : Int) (newLevel : Nat) (leveledUp : Bool) :
    (commitState s1 u a st0 xpAmount newTotal newLevel leveledUp).stats u =
      { st0 with xpTotal := newTotal,
                 level := if leveledUp then newLevel else st0.level } := by
  simp [commitState]

theorem commitState_stats_other (s1 : SysState) (u : Nat) (a : String) (st0 : UserStats)
    (xpAmount newTotal : Int) (newLevel : Nat) (leveledUp : Bool) (v : Nat) (hv : v ≠ u) :
    (commitState s1 u a st0 xpAmount newTotal newLevel leveledUp).stats v = s1.stats v := by
  simp [commitState, hv]

theorem awardTail_spec (env : AwardEnv) (sC : SysState) (u : Nat) (a : String)
    (action : XPAction) (xpAmount newTotal : Int) (newLevel : Nat) (leveledUp : Bool)
    (r : AwardResult) (s2 : SysState)
    (hE : awardTail env sC u a action xpAmount newTotal newLevel leveledUp = (r, s2)) :
    (r = AwardResult.ok ∨ ∃ st, r = AwardResult.postCommitFailed st) ∧
    s2.stats = sC.stats ∧
    (s2.cooldowns = sC.cooldowns ∨
      (r = AwardResult.ok ∧ s2.cooldowns = (u, a) :: sC.cooldowns)) := by
  unfold awardTail at hE
  split at hE
  · injection hE with h1 h2
    subst h1; subst h2
    exact ⟨Or.inr ⟨_, rfl⟩, rfl, Or.inl rfl⟩
  · simp only [] at hE
    split at hE
    · injection hE with h1 h2
      subst h1; subst h2
      exact ⟨Or.inr ⟨_, rfl⟩, updateLeaderboardXP_stats sC u newTotal,
             Or.inl (updateLeaderboardXP_cooldowns sC u newTotal)⟩
    · split at hE
      · split at hE
        · injection hE with h1 h2
          subst h1; subst h2
          refine ⟨Or.inr ⟨_, rfl⟩, ?_, Or.inl ?_⟩
          · simp only [queueXPIntentS_stats, updateLeaderboardXP_stats]
          · simp only [queueXPIntentS_cooldowns, updateLeaderboardXP_cooldowns]
        · injection hE with h1 h2
          subst h1; subst h2
          refine ⟨Or.inl rfl, ?_, Or.inr ⟨rfl, ?_⟩⟩
          · simp only [setCooldownS, queueXPIntentS_stats, updateLeaderboardXP_stats]
          · simp only [setCooldownS, queueXPIntentS_cooldowns, updateLeaderboardXP_cooldowns]
      · injection hE with h1 h2
        subst h1; subst h2
        refine ⟨Or.inl rfl, ?_, Or.inl ?_⟩
        · simp only [queueXPIntentS_stats, updateLeaderboardXP_stats]
        · simp only [queueXPIntentS_cooldowns, updateLeaderboardXP_cooldowns]

theorem awardXP_master (env : AwardEnv) (s : SysState) (u : Nat) (a : String)
    (r : AwardResult) (s2 : SysState) (hE : awardXP env s u a = (r, s2)) :
    ((∃ st, r = AwardResult.txFailed st) →
      (s2.xpLogs = s.xpLogs ∧ s2.stats = s.stats ∧ s2.cooldowns = s.cooldowns ∧
       s2.intents = s.intents ∧ s2.ledger = s.ledger ∧ s2.lbGlobal = s.lbGlobal ∧
       s2.lbWeekly = s.lbWeekly ∧ s2.lbMonthly = s.lbMonthly ∧
       ∀ m ∈ s2.sent, m ∈ s.sent ∨
         ∃ t, m = WSEvent.achievementUnlocked u t (getAchievementTitle t))) ∧
    ((r = AwardResult.unknownAction ∨ r = AwardResult.onCooldown ∨
      r = AwardResult.dailyLimit) → s2 = s) ∧
    (s2.cooldowns ≠ s.cooldowns →
      r = AwardResult.ok ∧ s2.cooldowns = (u, a) :: s.cooldowns) ∧
    (r.toBool = true →
      (s2.stats u).xpTotal = (s.stats u).xpTotal + awardAmount env s u a) ∧
    (∀ v, (s.stats v).xpTotal ≤ (s2.stats v).xpTotal) ∧
    (∀ v, (s2.stats v).level = (s.stats v).level ∨
      (s.stats v).level < (s2.stats v).level) := by
  unfold awardXP at hE
  split at hE
  · -- findAction a = none
    injection hE with h1 h2
    subst h1; subst h2
    refine ⟨fun h => ?_, fun _ => rfl, fun hne => absurd rfl hne,
            fun hb => by simp [AwardResult.toBool] at hb,
            fun v => le_refl _, fun v => Or.inl rfl⟩
    obtain ⟨st, hst⟩ := h
    simp at hst
  · rename_i action hfa
    split at hE
    · -- on cooldown
      injection hE with h1 h2
      subst h1; subst h2
      refine ⟨fun h => ?_, fun _ => rfl, fun hne => absurd rfl hne,
              fun hb => by simp [AwardResult.toBool] at hb,
              fun v => le_refl _, fun v => Or.inl rfl⟩
      obtain ⟨st, hst⟩ := h
      simp at hst
    · split at hE
      · -- daily limit
        injection hE with h1 h2
        subst h1; subst h2
        refine ⟨fun h => ?_, fun _ => rfl, fun hne => absurd rfl hne,
                fun hb => by simp [AwardResult.toBool] at hb,
                fun v => le_refl _, fun v => Or.inl rfl⟩
        obtain ⟨st, hst⟩ := h
        simp at hst
      · simp only [] at hE
        split at hE
        · -- fails insertXpLog
          injection hE with h1 h2
          subst h1; subst h2
          refine ⟨fun _ => ⟨rfl, rfl, rfl, rfl, rfl, rfl, rfl, rfl,
                    fun m hm => Or.inl hm⟩,
                  ?_, fun hne => absurd rfl hne,
                  fun hb => by simp [AwardResult.toBool] at hb,
                  fun v => le_refl _, fun v => Or.inl rfl⟩
          rintro (h | h | h) <;> simp at h
        · split at hE
          · -- fails updateStats
            injection hE with h1 h2
            subst h1; subst h2
            refine ⟨fun _ => ⟨rfl, rfl, rfl, rfl, rfl, rfl, rfl, rfl,
                      fun m hm => Or.inl hm⟩,
                    ?_, fun hne => absurd rfl hne,
                    fun hb => by simp [AwardResult.toBool] at hb,
                    fun v => le_refl _, fun v => Or.inl rfl⟩
            rintro (h | h | h) <;> simp at h
          · split at hE
            · -- fails updateLevel during a level-up
              injection hE with h1 h2
              subst h1; subst h2
              refine ⟨fun _ => ⟨rfl, rfl, rfl, rfl, rfl, rfl, rfl, rfl,
                        fun m hm => Or.inl hm⟩,
                      ?_, fun hne => absurd rfl hne,
                      fun hb => by simp [AwardResult.toBool] at hb,
                      fun v => le_refl _, fun v => Or.inl rfl⟩
              rintro (h | h | h) <;> simp at h
            · split at hE
              · -- fails commitTx: the pool-side achievement writes stay
                injection hE with h1 h2
                subst h1; subst h2
                refine ⟨fun _ => ?_, ?_, fun hne => ?_,
                        fun hb => by simp [AwardResult.toBool] at hb, ?_, ?_⟩
                · split_ifs with hL
                  · exact ⟨checkLevelAchievements_xpLogs env s u _,
                           checkLevelAchievements_stats env s u _,
                           checkLevelAchievements_cooldowns env s u _,
                           checkLevelAchievements_intents env s u _,
                           checkLevelAchievements_ledger env s u _,
                           checkLevelAchievements_lbGlobal env s u _,
                           checkLevelAchievements_lbWeekly env s u _,
                           checkLevelAchievements_lbMonthly env s u _,
                           checkLevelAchievements_sent env s u _⟩
                  · exact ⟨rfl, rfl, rfl, rfl, rfl, rfl, rfl, rfl,
                           fun m hm => Or.inl hm⟩
                · rintro (h | h | h) <;> simp at h
                · exfalso
                  apply hne
                  split_ifs with hL
                  · exact checkLevelAchievements_cooldowns env s u _
                  · rfl
                · intro v
                  split_ifs with hL
                  · rw [checkLevelAchievements_stats]
                  · exact le_rfl
                · intro v
                  split_ifs with hL
                  · rw [checkLevelAchievements_stats]
                    exact Or.inl rfl
                  · exact Or.inl rfl
              · -- committed; the tail runs outside the transaction
                obtain ⟨hr, hstats, hcool⟩ :=
                  awardTail_spec _ _ _ _ _ _ _ _ _ _ _ hE
                refine ⟨fun h => ?_, fun h => ?_, fun hne => ?_, fun hb => ?_, ?_, ?_⟩
                · obtain ⟨st, hst⟩ := h
                  rcases hr with h1 | ⟨st2, h1⟩ <;> (rw [h1] at hst ; simp at hst)
                · rcases h with h1 | h1 | h1 <;>
                    rcases hr with h2 | ⟨st2, h2⟩ <;>
                    (rw [h2] at h1 ; simp at h1)
                · rcases hcool with h1 | ⟨hok, h1⟩
                  · exfalso
                    apply hne
                    rw [h1]
                    simp only [commitState]
                    split_ifs with hL
                    · exact checkLevelAchievements_cooldowns env s u _
                    · rfl
                  · refine ⟨hok, ?_⟩
                    rw [h1]
                    simp only [commitState]
                    congr 1
                    split_ifs with hL
                    · exact checkLevelAchievements_cooldowns env s u _
                    · rfl
                · rcases hr with h1 | ⟨st2, h1⟩
                  · simp [hstats, commitState_stats_self, awardAmount, hfa]
                  · rw [h1] at hb
                    simp [AwardResult.toBool] at hb
                · intro v
                  rw [hstats]
                  by_cases hv : v = u
                  · subst hv
                    rw [commitState_stats_self]
                    exact le_add_of_nonneg_right (calculateXPAmountZ_nonneg _ _ _)
                  · rw [commitState_stats_other _ _ _ _ _ _ _ _ _ hv]
                    split_ifs with hL
                    · rw [checkLevelAchievements_stats]
                    · exact le_rfl
                · intro v
                  rw [hstats]
                  by_cases hv : v = u
                  · subst hv
                    simp only [commitState_stats_self]
                    split_ifs with hL
                    · exact Or.inr (of_decide_eq_true hL)
                    · exact Or.inl rfl
                  · rw [commitState_stats_other _ _ _ _ _ _ _ _ _ hv]
                    split_ifs with hL
                    · rw [checkLevelAchievements_stats]
                      exact Or.inl rfl
                    · exact Or.inl rfl

/-! ## Claim theorems about awardXP runs -/


/-- C1 counterexample: an award that crosses level 5 and then fails at
COMMIT returns a rejection and rolls back xp_logs and user_stats, yet a
persisted achievement row and an achievement_unlocked notification remain:
the claimed absence of any partial effect is false. -/
theorem awardXP_commit_failure_partial_effect :
    (awardXP envFailCommit nearLevel5State 7 "first_trade").1 =
      AwardResult.txFailed Step.commitTx ∧
    (awardXP envFailCommit nearLevel5State 7 "first_trade").2.achievements =
      [(7, "basic_trader")] ∧
    WSEvent.achievementUnlocked 7 "basic_trader" "Basic Trader" ∈
      (awardXP envFailCommit nearLevel5State 7 "first_trade").2.sent ∧
    (awardXP envFailCommit nearLevel5State 7 "first_trade").2.xpLogs = [] ∧
    ((awardXP envFailCommit nearLevel5State 7 "first_trade").2.stats 7).xpTotal = 999 := by
  refine ⟨?_, ?_, ?_, ?_, ?_⟩ <;> decide

/-- C1 (amended): when any step of the durable transaction fails, awardXP
returns false and the caller observes no xp_logs row, no user_stats
change, no queued intent, no leaderboard change and no cooldown; any
message that escaped is an achievement notification produced by the
pool-connection writes of awardAchievement, which run outside the
transaction. -/
theorem awardXP_txFailed_no_partial_core_effect (env : AwardEnv) (s : SysState)
    (u : Nat) (a : String) (st : Step)
    (h : (awardXP env s u a).1 = AwardResult.txFailed st) :
    (awardXP env s u a).1.toBool = false ∧
    (awardXP env s u a).2.xpLogs = s.xpLogs ∧
    (awardXP env s u a).2.stats = s.stats ∧
    (awardXP env s u a).2.cooldowns = s.cooldowns ∧
    (awardXP env s u a).2.intents = s.intents ∧
    (awardXP env s u a).2.ledger = s.ledger ∧
    (awardXP env s u a).2.lbGlobal = s.lbGlobal ∧
    (awardXP env s u a).2.lbWeekly = s.lbWeekly ∧
    (awardXP env s u a).2.lbMonthly = s.lbMonthly ∧
    (∀ m ∈ (awardXP env s u a).2.sent, m ∈ s.sent ∨
      ∃ t, m = WSEvent.achievementUnlocked u t (getAchievementTitle t)) := by
  have master := awardXP_master env s u a (awardXP env s u a).1
    (awardXP env s u a).2 Prod.mk.eta.symm
  have frame := master.1 ⟨st, h⟩
  exact ⟨by rw [h] ; rfl, frame.1, frame.2.1, frame.2.2.1, frame.2.2.2.1,
         frame.2.2.2.2.1, frame.2.2.2.2.2.1, frame.2.2.2.2.2.2.1,
         frame.2.2.2.2.2.2.2.1, frame.2.2.2.2.2.2.2.2⟩

/-- Closed witness for the amended C1 at the COMMIT-failure run. -/
theorem awardXP_txFailed_witness :
    (awardXP envFailCommit nearLevel5State 7 "first_trade").2.xpLogs =
      nearLevel5State.xpLogs :=
  (awardXP_txFailed_no_partial_core_effect envFailCommit nearLevel5State 7 "first_trade"
    Step.commitTx (by decide)).2.1

/-- C8: the cooldown reservation is committed only after the durable
write transaction has succeeded: a transaction failure leaves the
cooldown store untouched, and the cooldown store changes only in runs
that return success (setCooldown is the last step after COMMIT). -/
theorem cooldown_commit_after_durable_write (env : AwardEnv) (s : SysState)
    (u : Nat) (a : String) :
    (∀ st, (awardXP env s u a).1 = AwardResult.txFailed st →
      (awardXP env s u a).2.cooldowns = s.cooldowns) ∧
    ((awardXP env s u a).2.cooldowns ≠ s.cooldowns →
      (awardXP env s u a).1 = AwardResult.ok ∧
      (awardXP env s u a).2.cooldowns = (u, a) :: s.cooldowns) := by
  have master := awardXP_master env s u a (awardXP env s u a).1
    (awardXP env s u a).2 Prod.mk.eta.symm
  exact ⟨fun st h => (master.1 ⟨st, h⟩).2.2.1, master.2.2.1⟩

/-- Closed witness for C8 at the COMMIT-failure run. -/
theorem cooldown_commit_after_durable_write_witness :
    (awardXP envFailCommit nearLevel5State 7 "first_trade").2.cooldowns =
      nearLevel5State.cooldowns :=
  (cooldown_commit_after_durable_write envFailCommit nearLevel5State 7 "first_trade").1
    Step.commitTx (by decide)

theorem runAward_sum (u : Nat) (s : SysState) (reqs : List (AwardEnv × String))
    (hok : allOk u s reqs = true) :
    ((runAward u s reqs).stats u).xpTotal =
      (s.stats u).xpTotal + (runAmounts u s reqs).sum := by
  induction reqs generalizing s with
  | nil => simp [runAward, runAmounts]
  | cons head rest ih =>
    obtain ⟨env, a⟩ := head
    simp only [allOk, Bool.and_eq_true] at hok
    obtain ⟨h1, h2⟩ := hok
    simp only [runAward, runAmounts, List.sum_cons]
    rw [ih _ h2]
    have master := awardXP_master env s u a (awardXP env s u a).1
      (awardXP env s u a).2 Prod.mk.eta.symm
    rw [master.2.2.2.1 h1]
    ring

theorem runAward_xp_monotone (u : Nat) (s : SysState) (reqs : List (AwardEnv × String))
    (v : Nat) :
    (s.stats v).xpTotal ≤ ((runAward u s reqs).stats v).xpTotal := by
  induction reqs generalizing s with
  | nil => exact le_rfl
  | cons head rest ih =>
    obtain ⟨env, a⟩ := head
    simp only [runAward]
    have master := awardXP_master env s u a (awardXP env s u a).1
      (awardXP env s u a).2 Prod.mk.eta.symm
    exact le_trans (master.2.2.2.2.1 v) (ih (awardXP env s u a).2)

theorem runAward_level_monotone (u : Nat) (s : SysState) (reqs : List (AwardEnv × String))
    (v : Nat) :
    (s.stats v).level ≤ ((runAward u s reqs).stats v).level := by
  induction reqs generalizing s with
  | nil => exact le_rfl
  | cons head rest ih =>
    obtain ⟨env, a⟩ := head
    simp only [runAward]
    have master := awardXP_master env s u a (awardXP env s u a).1
      (awardXP env s u a).2 Prod.mk.eta.symm
    refine le_trans ?_ (ih (awardXP env s u a).2)
    rcases master.2.2.2.2.2 v with h | h
    · exact le_of_eq h.symm
    · exact le_of_lt h

/-- C3: over any sequence of awardXP calls for one user, if every call
succeeds the final XP total equals the starting total plus the sum of the
computed amounts; across any sequence (successful or rejected) no user's
xp_total ever decreases, each single call leaves the stored level equal
or strictly larger, and levels never decrease along a run. -/
theorem xp_sum_and_monotone (u : Nat) (s : SysState) (reqs : List (AwardEnv × String)) :
    (allOk u s reqs = true →
      ((runAward u s reqs).stats u).xpTotal =
        (s.stats u).xpTotal + (runAmounts u s reqs).sum) ∧
    (∀ v, (s.stats v).xpTotal ≤ ((runAward u s reqs).stats v).xpTotal) ∧
    (∀ env a v, ((awardXP env s u a).2.stats v).level = (s.stats v).level ∨
      (s.stats v).level < ((awardXP env s u a).2.stats v).level) ∧
    (∀ v, (s.stats v).level ≤ ((runAward u s reqs).stats v).level) := by
  refine ⟨runAward_sum u s reqs, runAward_xp_monotone u s reqs, ?_,
          runAward_level_monotone u s reqs⟩
  intro env a v
  have master := awardXP_master env s u a (awardXP env s u a).1
    (awardXP env s u a).2 Prod.mk.eta.symm
  exact master.2.2.2.2.2 v


/-- Closed witness for C3 on two successful awards to a fresh user. -/
theorem xp_sum_and_monotone_witness :
    ((runAward 1 freshState reqsC3).stats 1).xpTotal =
      (freshState.stats 1).xpTotal + (runAmounts 1 freshState reqsC3).sum :=
  (xp_sum_and_monotone 1 freshState reqsC3).1 (by decide)

/-! ## Claim theorems for the ledger-sync queue (C2) -/

/-- C2 counterexample: with 99 intents pending, enqueueing one more
triggers the batch; the consumer pops all 100 intents before the external
ledger call, and when that call fails the queue is empty and the ledger
unchanged: every popped intent is dropped, not retried. -/
theorem ledger_failure_drops_queued_intents :
    fullQueueState.intents.length = 99 ∧
    (queueXPIntentS envLedgerDown fullQueueState 7 "first_trade" 100).intents = [] ∧
    (queueXPIntentS envLedgerDown fullQueueState 7 "first_trade" 100).ledger = [] := by
  refine ⟨?_, ?_, ?_⟩ <;> decide

/-- C2 (amended): the consumer removes up to 100 oldest intents from the
queue before the external call is attempted, regardless of its outcome; a
confirming call records exactly the popped batch, a failing call records
nothing (the popped intents are dropped, only logged); enqueue always
prepends durably and processing only triggers at queue length 100. -/
theorem intent_queue_spec (env : AwardEnv) (s : SysState) :
    (processPendingXPIntentsS env s).intents = (s.intents.reverse.drop 100).reverse ∧
    (env.ledgerOk = true → s.intents ≠ [] →
      (processPendingXPIntentsS env s).ledger = (s.intents.reverse.take 100) :: s.ledger) ∧
    (env.ledgerOk = false → (processPendingXPIntentsS env s).ledger = s.ledger) ∧
    (s.intents.length < 99 → ∀ u a amt,
      (queueXPIntentS env s u a amt).intents = Intent.mk u a amt :: s.intents) := by
  refine ⟨?_, ?_, ?_, ?_⟩
  · by_cases hemp : (s.intents.reverse.take 100).isEmpty
    · have hnil : s.intents = [] := by
        simpa using hemp
      simp [processPendingXPIntentsS, hemp, hnil]
    · by_cases hl : env.ledgerOk <;> simp [processPendingXPIntentsS, hemp, hl]
  · intro hl hne
    have hemp : ¬(s.intents.reverse.take 100).isEmpty = true := by
      simpa using hne
    simp [processPendingXPIntentsS, hemp, hl]
  · intro hl
    by_cases hemp : (s.intents.reverse.take 100).isEmpty
    · simp [processPendingXPIntentsS, hemp]
    · simp [processPendingXPIntentsS, hemp, hl]
  · intro hlen u a amt
    have h99 : ¬(99 ≤ s.intents.length) := by omega
    simp [queueXPIntentS, h99]

/-- Closed witness for the amended C2 with a failing ledger. -/
theorem intent_queue_spec_witness :
    (processPendingXPIntentsS envLedgerDown fullQueueState).ledger =
      fullQueueState.ledger :=
  (intent_queue_spec envLedgerDown fullQueueState).2.2.1 (by decide)

/-! ## Claim theorems for rank-change notification (C6) -/

/-- C6 (amended): a rank-change notification fires if and only if the
user already had a rank in the window before the update and either the
absolute rank change reaches the threshold (10) or the new 0-indexed rank
is inside the top 10; a user placed on the board for the first time never
receives one. -/
theorem updateLeaderboardRank_notify_iff (board : List (Nat × Int)) (u : Nat) (sc : Int) :
    (updateLeaderboardRank board u sc).2 = true ↔
      ∃ o n, zrevrank board u = some o ∧ zrevrank (zaddA board u sc) u = some n ∧
        (rankChangeThreshold ≤ ((o : Int) - n).natAbs ∨ n < 10) := by
  simp only [updateLeaderboardRank]
  rcases h1 : zrevrank board u with _ | o <;>
    rcases h2 : zrevrank (zaddA board u sc) u with _ | n <;>
    simp [h1, h2, rankChangeThreshold]

/-- C6 counterexample: a user entering an empty board lands at rank 0,
inside the visible top tier, yet no notification fires because the user
had no previous rank. -/
theorem first_top_tier_entry_without_notification :
    zrevrank ([] : List (Nat × Int)) 1 = none ∧
    zrevrank (zaddA [] 1 100) 1 = some 0 ∧
    (updateLeaderboardRank [] 1 100).2 = false := by
  refine ⟨?_, ?_, ?_⟩ <;> decide

/-! ## Claim theorems for WebSocket fan-out (C9) -/

theorem sendToUserW_mem (clients : List (Nat × List Conn)) (u : Nat) (ev : String)
    (c : Conn) (e : String) (h : (c, e) ∈ sendToUserW clients u ev) :
    e = ev ∧ c ∈ connsOf clients u ∧ c.isOpen = true := by
  unfold sendToUserW at h
  unfold connsOf
  rcases hf : clients.find? (fun p => p.1 == u) with _ | pr
  · rw [hf] at h
    cases h
  · rw [hf] at h
    simp only [List.mem_map, List.mem_filter] at h
    obtain ⟨c', ⟨hc'm, hc'o⟩, heq⟩ := h
    injection heq with heq1 heq2
    subst heq1
    subst heq2
    simp [hf, hc'm, hc'o]

theorem sendToUserW_count_one (clients : List (Nat × List Conn)) (u : Nat) (ev : String)
    (c : Conn) (hnd : (connsOf clients u).Nodup)
    (hm : c ∈ connsOf clients u) (ho : c.isOpen = true) :
    (sendToUserW clients u ev).count (c, ev) = 1 := by
  unfold connsOf at hnd hm
  rcases hf : clients.find? (fun p => p.1 == u) with _ | pr
  · rw [hf] at hm
    simp at hm
  · rw [hf] at hm hnd
    simp only [Option.map_some', Option.getD_some] at hm hnd
    have h1 : sendToUserW clients u ev =
        (pr.2.filter (fun x => x.isOpen)).map (fun x => (x, ev)) := by
      unfold sendToUserW
      rw [hf]
    rw [h1, List.count_eq_countP, List.countP_map]
    have hpe : ((fun y => y == ((c, ev) : Conn × String)) ∘ (fun x : Conn => (x, ev))) =
        (fun x : Conn => x == c) := by
      funext x
      rw [Function.comp_apply, Bool.eq_iff_iff]
      simp [Prod.ext_iff]
    rw [hpe, ← List.count_eq_countP]
    exact List.count_eq_one_of_mem (hnd.filter _) (List.mem_filter.mpr ⟨hm, ho⟩)

theorem connsOf_cons_pos (k : Nat) (cs : List Conn) (rest : List (Nat × List Conn))
    (v : Nat) (h : (k == v) = true) : connsOf ((k, cs) :: rest) v = cs := by
  unfold connsOf
  simp [h]

theorem connsOf_cons_neg (k : Nat) (cs : List Conn) (rest : List (Nat × List Conn))
    (v : Nat) (h : ¬(k == v) = true) : connsOf ((k, cs) :: rest) v = connsOf rest v := by
  unfold connsOf
  rw [List.find?_cons_of_neg (p := fun q => q.1 == v) (a := (k, cs)) rest
    (by simpa using h)]

theorem connsOf_handleClose_not_mem (clients : List (Nat × List Conn)) (c : Conn)
    (hwf : ∀ p ∈ clients, ∀ x ∈ p.2, x.userId = p.1) (v : Nat) :
    c ∉ connsOf (handleClose clients c) v := by
  induction clients with
  | nil => simp [handleClose, connsOf]
  | cons head rest ih =>
    obtain ⟨k, cs⟩ := head
    have hwfr : ∀ p ∈ rest, ∀ x ∈ p.2, x.userId = p.1 :=
      fun p hmem => hwf p (List.mem_cons_of_mem _ hmem)
    simp only [handleClose]
    by_cases hk : (k == c.userId) = true
    · rw [if_pos hk]
      by_cases hemp : (cs.filter (fun x => !(x == c))).isEmpty = true
      · rw [if_pos hemp]
        exact ih hwfr
      · rw [if_neg hemp]
        by_cases hkv : (k == v) = true
        · rw [connsOf_cons_pos _ _ _ _ hkv]
          intro hc
          have := List.of_mem_filter hc
          simp at this
        · rw [connsOf_cons_neg _ _ _ _ hkv]
          exact ih hwfr
    · rw [if_neg hk]
      by_cases hkv : (k == v) = true
      · rw [connsOf_cons_pos _ _ _ _ hkv]
        intro hc
        have hck : c.userId = k := hwf (k, cs) (List.mem_cons_self _ _) c hc
        apply hk
        simp [hck]
      · rw [connsOf_cons_neg _ _ _ _ hkv]
        exact ih hwfr

/-- C9: one sendToUser call delivers the event exactly once to each
connection registered under the user whose socket is open, and nothing to
closed sockets, to other users' connections, or to a connection already
removed by the close handler; the call produces no retries (its
deliveries are exactly this list). -/
theorem sendToUser_at_most_once (clients : List (Nat × List Conn)) (u : Nat) (ev : String)
    (hnd : (connsOf clients u).Nodup)
    (hwf : ∀ p ∈ clients, ∀ x ∈ p.2, x.userId = p.1) :
    (∀ c e, (c, e) ∈ sendToUserW clients u ev →
      e = ev ∧ c ∈ connsOf clients u ∧ c.isOpen = true) ∧
    (∀ c, c ∈ connsOf clients u → c.isOpen = true →
      (sendToUserW clients u ev).count (c, ev) = 1) ∧
    (∀ c, c ∉ connsOf clients u → ∀ e, (c, e) ∉ sendToUserW clients u ev) ∧
    (∀ c v, (c, ev) ∉ sendToUserW (handleClose clients c) v ev) := by
  refine ⟨fun c e h => sendToUserW_mem clients u ev c e h,
          fun c hm ho => sendToUserW_count_one clients u ev c hnd hm ho,
          fun c hnm e h => hnm (sendToUserW_mem clients u ev c e h).2.1,
          fun c v h => ?_⟩
  exact connsOf_handleClose_not_mem clients c hwf v
    (sendToUserW_mem (handleClose clients c) v ev c ev h).2.1

/-- Closed witness for C9 on a concrete clients map. -/
theorem sendToUser_at_most_once_witness :
    (sendToUserW clientsW 1 "xp_gained").count (⟨10, 1, true⟩, "xp_gained") = 1 :=
  (sendToUser_at_most_once clientsW 1 "xp_gained" (by decide)
    (by decide)).2.1 ⟨10, 1, true⟩ (by decide) (by decide)

/-! ## Claim theorems for leaderboard queries (C7) -/

theorem rankBefore_ahead_false (u : Nat) (sc : Int) (x : Nat × Int)
    (h : rankBefore (u, sc) x) : aheadOf u sc x = false := by
  unfold rankBefore at h
  simp only [aheadOf, Bool.or_eq_false_iff, Bool.and_eq_false_iff,
    decide_eq_false_iff_not, beq_eq_false_iff_ne, ne_eq]
  constructor
  · omega
  · by_cases h2 : x.2 = sc
    · right
      omega
    · left
      simpa using h2

theorem ahead_of_rankBefore_ne (u : Nat) (sc : Int) (x : Nat × Int)
    (h : rankBefore x (u, sc)) (hne : x.1 ≠ u) : aheadOf u sc x = true := by
  unfold rankBefore at h
  simp only [aheadOf, Bool.or_eq_true, Bool.and_eq_true, decide_eq_true_eq, beq_iff_eq]
  omega

theorem sorted_get_countP (l : List (Nat × Int)) (hs : List.Sorted rankBefore l)
    (hnd : (l.map Prod.fst).Nodup) (u : Nat) (sc : Int) (hmem : (u, sc) ∈ l) :
    l.get? (l.countP (aheadOf u sc)) = some (u, sc) := by
  induction l with
  | nil => cases hmem
  | cons h t ih =>
    rw [List.sorted_cons] at hs
    obtain ⟨hhd, hst⟩ := hs
    simp only [List.map_cons, List.nodup_cons] at hnd
    obtain ⟨hh1, hndt⟩ := hnd
    rcases List.mem_cons.mp hmem with heq | hmm
    · subst heq
      have hhd0 : aheadOf u sc (u, sc) = false := by
        simp [aheadOf]
      have ht0 : ∀ x ∈ t, ¬(aheadOf u sc x = true) := by
        intro x hx
        rw [rankBefore_ahead_false u sc x (hhd x hx)]
        simp
      have hz : List.countP (aheadOf u sc) ((u, sc) :: t) = 0 := by
        rw [List.countP_cons, List.countP_eq_zero.mpr ht0]
        simp [hhd0]
      rw [hz]
      rfl
    · have hne : h.1 ≠ u := by
        intro heq2
        apply hh1
        have : (u, sc).1 ∈ t.map Prod.fst := List.mem_map_of_mem Prod.fst hmm
        rw [heq2]
        exact this
      have hahead : aheadOf u sc h = true := ahead_of_rankBefore_ne u sc h (hhd _ hmm) hne
      rw [List.countP_cons]
      simp only [hahead, if_pos]
      rw [List.get?_cons_succ]
      exact ih hst hndt hmm

theorem zrevrank_spec (board : List (Nat × Int)) (hnd : (board.map Prod.fst).Nodup)
    (u : Nat) :
    (zrevrank board u = none ↔ ∀ sc, (u, sc) ∉ board) ∧
    (∀ r, zrevrank board u = some r → ∃ sc, (sortBoard board).get? r = some (u, sc)) := by
  have hperm : List.Perm (sortBoard board) board := List.perm_insertionSort rankBefore board
  have hsorted : List.Sorted rankBefore (sortBoard board) :=
    List.sorted_insertionSort rankBefore board
  have hndp : ((sortBoard board).map Prod.fst).Nodup :=
    (List.Perm.nodup_iff (hperm.map Prod.fst)).mpr hnd
  constructor
  · unfold zrevrank
    rcases hf : board.find? (fun p => p.1 == u) with _ | pr
    · simp only [hf]
      constructor
      · intro _ sc hmem
        have := List.find?_eq_none.mp hf _ hmem
        simp at this
      · intro _
        trivial
    · simp only [hf]
      constructor
      · intro hcontra
        cases hcontra
      · intro hnone
        exfalso
        have hprmem : pr ∈ board := List.mem_of_find?_eq_some hf
        have hpr1 : pr.1 = u := by simpa using List.find?_some hf
        apply hnone pr.2
        rw [← hpr1]
        exact hprmem
  · intro r hr
    unfold zrevrank at hr
    rcases hf : board.find? (fun p => p.1 == u) with _ | pr
    · rw [hf] at hr
      cases hr
    · rw [hf] at hr
      injection hr with hr1
      have hpr1 : pr.1 = u := by simpa using List.find?_some hf
      have hprmem : pr ∈ board := List.mem_of_find?_eq_some hf
      have hmem : (u, pr.2) ∈ sortBoard board := by
        rw [hperm.mem_iff, ← hpr1]
        exact hprmem
      refine ⟨pr.2, ?_⟩
      rw [← hr1]
      have hcnt : (board.filter (aheadOf u pr.2)).length =
          (sortBoard board).countP (aheadOf u pr.2) := by
        rw [← List.countP_eq_length_filter]
        exact (hperm.countP_eq _).symm
      rw [hcnt]
      exact sorted_get_countP _ hsorted hndp u pr.2 hmem

/-- C7 counterexample: with user 1 at 50 XP and user 2 at 100 XP and the
relational store returning rows in ascending id order, getLeaderboard
ranks user 1 first with 50 XP: the output is not in descending XP order
and rank 1 is not the top scorer. -/
theorem getLeaderboard_row_order_counterexample :
    ((getLeaderboardQ [(1, 50), (2, 100)] rowsAB 2).map
      (fun e => (e.rank, e.userId, e.xp))) = [(1, 1, 50), (2, 2, 100)] ∧
    ¬ List.Sorted (fun x y => y ≤ x)
      ((getLeaderboardQ [(1, 50), (2, 100)] rowsAB 2).map (fun e => e.xp)) := by
  constructor <;> decide

/-- C7 (amended): getLeaderboard assigns rank fields 1..N following the
relational store's row-return order (not the descending-XP order), and
returns exactly the returned rows whose ids are among the top-limit
members; getUserRank exposes the 0-indexed ZREVRANK as a 1-indexed rank,
which under distinct member ids is exactly one plus the member's position
in the descending order, and is null iff the user is absent. -/
theorem getLeaderboard_spec (board : List (Nat × Int)) (dbRows : List UserRow)
    (limit : Nat) (hnd : (board.map Prod.fst).Nodup) :
    (∀ i e, (getLeaderboardQ board dbRows limit).get? i = some e → e.rank = i + 1) ∧
    ((getLeaderboardQ board dbRows limit).map (fun e => e.userId) =
      (dbRows.filter (fun w =>
        (((sortBoard board).take limit).map (fun p => p.1)).contains w.id)).map
          (fun w => w.id)) ∧
    (∀ u r, getUserRankS board u = some r →
      1 ≤ r ∧ ∃ sc, (sortBoard board).get? (r - 1) = some (u, sc)) ∧
    (∀ u, getUserRankS board u = none ↔ ∀ sc, (u, sc) ∉ board) := by
  refine ⟨?_, ?_, ?_, ?_⟩
  · intro i e h
    unfold getLeaderboardQ at h
    by_cases hres : ((sortBoard board).take limit).isEmpty = true
    · simp [zrevrangeWithScores, hres] at h
    · simp only [zrevrangeWithScores] at h
      rw [if_neg hres] at h
      rw [List.get?_map, List.get?_enum] at h
      rcases hrow : (dbRows.filter (fun w =>
          (((sortBoard board).take limit).map (fun p => p.1)).contains w.id)).get? i
        with _ | row
      · rw [hrow] at h
        cases h
      · rw [hrow] at h
        injection h with h1
        rw [← h1]
  · unfold getLeaderboardQ
    by_cases hres : ((sortBoard board).take limit).isEmpty = true
    · have hnil : (sortBoard board).take limit = [] := by
        simpa using hres
      simp [zrevrangeWithScores, hres, hnil]
    · simp only [zrevrangeWithScores]
      rw [if_neg hres]
      have h2 : ∀ g : List UserRow,
          (g.enum.map fun p => p.2.id) = g.map (fun w => w.id) := by
        intro g
        calc (g.enum.map fun p => p.2.id)
            = (g.enum.map Prod.snd).map (fun w => w.id) := by
              rw [List.map_map]
              rfl
          _ = g.map (fun w => w.id) := by rw [List.enum_map_snd]
      rw [List.map_map]
      exact h2 _
  · intro u r hr
    unfold getUserRankS at hr
    rcases hz : zrevrank board u with _ | r0
    · rw [hz] at hr
      cases hr
    · rw [hz] at hr
      injection hr with hr1
      obtain ⟨sc, hsc⟩ := (zrevrank_spec board hnd u).2 r0 hz
      refine ⟨by omega, sc, ?_⟩
      rw [← hr1]
      simpa using hsc
  · intro u
    unfold getUserRankS
    rcases hz : zrevrank board u with _ | r0
    · simpa using (zrevrank_spec board hnd u).1.mp hz
    · simp only []
      constructor
      · intro hcontra
        cases hcontra
      · intro hnone
        exfalso
        have := (zrevrank_spec board hnd u).1.mpr hnone
        rw [hz] at this
        cases this

/-- Closed witness for the amended C7 at a concrete board. -/
theorem getLeaderboard_spec_witness :
    ({ rank := 1, userId := 1, username := "alice", walletAddress := "0xa",
       level := 3, xp := 50 } : LeaderboardEntry).rank = 0 + 1 :=
  (getLeaderboard_spec [(1, 50), (2, 100)] rowsAB 2 (by decide)).1 0
    ⟨1, 1, "alice", "0xa", 3, 50⟩ (by decide)

end GamifiedPerp
